import Mathlib

/-!
# Verification of the mcp-elpris chat-server orchestrator

Shallow embedding of `src/chat-server/src/index.ts`: the two-round
tool-augmented conversation protocol, the retry/backoff loop with model
fallback, the response parsing helpers, and the MCP tool bridge.

External collaborators (the Gemini model, the MCP tool endpoint, and
`JSON.parse`) are modelled as oracles supplied in an environment record;
the orchestrator itself is a pure function that additionally records a
trace of every model call, sleep, and bridge invocation, so that
call-count and call-order properties can be stated.
-/

namespace Elpris

/-- A JSON value, the `Any` payloads exchanged with the model and the tool. -/
inductive Json where
  | null : Json
  | bool : Bool → Json
  | num : Int → Json
  | str : String → Json
  | arr : List Json → Json
  | obj : List (String × Json) → Json

mutual

/-- Decidable equality for `Json` (the nested inductive defeats `deriving`). -/
def Json.decEq : (a b : Json) → Decidable (a = b)
  | .null, .null => isTrue rfl
  | .bool a, .bool b =>
    if h : a = b then isTrue (by rw [h]) else isFalse (by intro hc; injection hc; exact h ‹_›)
  | .num a, .num b =>
    if h : a = b then isTrue (by rw [h]) else isFalse (by intro hc; injection hc; exact h ‹_›)
  | .str a, .str b =>
    if h : a = b then isTrue (by rw [h]) else isFalse (by intro hc; injection hc; exact h ‹_›)
  | .arr a, .arr b =>
    match Json.decEqList a b with
    | isTrue h => isTrue (by rw [h])
    | isFalse h => isFalse (by intro hc; injection hc; exact h ‹_›)
  | .obj a, .obj b =>
    match Json.decEqObj a b with
    | isTrue h => isTrue (by rw [h])
    | isFalse h => isFalse (by intro hc; injection hc; exact h ‹_›)
  | .null, .bool _ => isFalse (fun h => Json.noConfusion h)
  | .null, .num _ => isFalse (fun h => Json.noConfusion h)
  | .null, .str _ => isFalse (fun h => Json.noConfusion h)
  | .null, .arr _ => isFalse (fun h => Json.noConfusion h)
  | .null, .obj _ => isFalse (fun h => Json.noConfusion h)
  | .bool _, .null => isFalse (fun h => Json.noConfusion h)
  | .bool _, .num _ => isFalse (fun h => Json.noConfusion h)
  | .bool _, .str _ => isFalse (fun h => Json.noConfusion h)
  | .bool _, .arr _ => isFalse (fun h => Json.noConfusion h)
  | .bool _, .obj _ => isFalse (fun h => Json.noConfusion h)
  | .num _, .null => isFalse (fun h => Json.noConfusion h)
  | .num _, .bool _ => isFalse (fun h => Json.noConfusion h)
  | .num _, .str _ => isFalse (fun h => Json.noConfusion h)
  | .num _, .arr _ => isFalse (fun h => Json.noConfusion h)
  | .num _, .obj _ => isFalse (fun h => Json.noConfusion h)
  | .str _, .null => isFalse (fun h => Json.noConfusion h)
  | .str _, .bool _ => isFalse (fun h => Json.noConfusion h)
  | .str _, .num _ => isFalse (fun h => Json.noConfusion h)
  | .str _, .arr _ => isFalse (fun h => Json.noConfusion h)
  | .str _, .obj _ => isFalse (fun h => Json.noConfusion h)
  | .arr _, .null => isFalse (fun h => Json.noConfusion h)
  | .arr _, .bool _ => isFalse (fun h => Json.noConfusion h)
  | .arr _, .num _ => isFalse (fun h => Json.noConfusion h)
  | .arr _, .str _ => isFalse (fun h => Json.noConfusion h)
  | .arr _, .obj _ => isFalse (fun h => Json.noConfusion h)
  | .obj _, .null => isFalse (fun h => Json.noConfusion h)
  | .obj _, .bool _ => isFalse (fun h => Json.noConfusion h)
  | .obj _, .num _ => isFalse (fun h => Json.noConfusion h)
  | .obj _, .str _ => isFalse (fun h => Json.noConfusion h)
  | .obj _, .arr _ => isFalse (fun h => Json.noConfusion h)

/-- Decidable equality for lists of `Json`. -/
def Json.decEqList : (a b : List Json) → Decidable (a = b)
  | [], [] => isTrue rfl
  | [], _ :: _ => isFalse (fun h => List.noConfusion h)
  | _ :: _, [] => isFalse (fun h => List.noConfusion h)
  | a :: as, b :: bs =>
    match Json.decEq a b, Json.decEqList as bs with
    | isTrue h1, isTrue h2 => isTrue (by rw [h1, h2])
    | isFalse h1, _ => isFalse (by intro hc; injection hc with hh _; exact h1 hh)
    | _, isFalse h2 => isFalse (by intro hc; injection hc with _ ht; exact h2 ht)

/-- Decidable equality for `Json` object field lists. -/
def Json.decEqObj : (a b : List (String × Json)) → Decidable (a = b)
  | [], [] => isTrue rfl
  | [], _ :: _ => isFalse (fun h => List.noConfusion h)
  | _ :: _, [] => isFalse (fun h => List.noConfusion h)
  | (s1, j1) :: as, (s2, j2) :: bs =>
    match Json.decEq j1 j2, Json.decEqObj as bs with
    | isTrue h1, isTrue h2 =>
      if hs : s1 = s2 then isTrue (by rw [hs, h1, h2])
      else isFalse (by
        intro hc; injection hc with hp _; injection hp with hs2 _; exact hs hs2)
    | isFalse h1, _ => isFalse (by
        intro hc; injection hc with hp _; injection hp with _ hj; exact h1 hj)
    | _, isFalse h2 => isFalse (by intro hc; injection hc with _ ht; exact h2 ht)

end

instance : DecidableEq Json := Json.decEq

/-- `p.functionCall` in a content part: `{ name, args }`; `args` may be absent
(`p.functionCall.args ?? {}` in the source defaults it). -/
structure FunctionCall where
  name : String
  args : Option Json
deriving DecidableEq

/-- `p.functionResponse` in a content part: `{ name, response }`. -/
structure FunctionResponse where
  name : String
  response : Json
deriving DecidableEq

/-- A content part; each field is optional, mirroring the loosely typed
objects the source traverses with optional chaining. -/
structure Part where
  text : Option String := none
  functionCall : Option FunctionCall := none
  functionResponse : Option FunctionResponse := none
deriving DecidableEq

/-- `cand.content`: may itself lack `parts`. -/
structure Content where
  parts : Option (List Part)
deriving DecidableEq

/-- One response candidate; `content` may be absent. -/
structure Candidate where
  content : Option Content
deriving DecidableEq

/-- A raw model response object; `candidates` may be absent. -/
structure GenResponse where
  candidates : Option (List Candidate)
deriving DecidableEq

/-- `cand?.content?.parts ?? []`. -/
def candParts (c : Candidate) : List Part :=
  (c.content.bind Content.parts).getD []

/-- JS `String.prototype.includes`: substring containment. -/
def strStarts : List Char → List Char → Bool
  | [], _ => true
  | _ :: _, [] => false
  | a :: as, b :: bs => a == b && strStarts as bs

def strContainsAux (pat : List Char) : List Char → Bool
  | [] => pat.isEmpty
  | c :: rest => strStarts pat (c :: rest) || strContainsAux pat rest

def strContains (s pat : String) : Bool :=
  strContainsAux pat.toList s.toList

/-- `parts.map(p => p?.text).filter(Boolean)`: the populated, non-empty text
fields of a list of parts (JS truthiness drops both `undefined` and `""`). -/
def partTexts (ps : List Part) : List String :=
  ((ps.map Part.text).filterMap id).filter (fun t => t ≠ "")

/-- The text of one candidate: populated text parts joined with newline. -/
def joinedText (c : Candidate) : String :=
  String.intercalate "\n" (partTexts (candParts c))

/-- The loop body of `extractText`: first candidate with truthy joined text
wins, `"(inget svar)"` if none. -/
def extractTextGo : List Candidate → String
  | [] => "(inget svar)"
  | c :: rest => if joinedText c ≠ "" then joinedText c else extractTextGo rest

/-- `extractText(resp)` from the source (lines 127-138). -/
def extractText (resp : GenResponse) : String :=
  extractTextGo (resp.candidates.getD [])

/-- The inline reply extraction used by the `/chat` handler (lines 200-217):
`cands.flatMap(cand => parts.map(p => p?.text).filter(Boolean)).join("\n")`. -/
def allTexts (resp : GenResponse) : List String :=
  (resp.candidates.getD []).flatMap (fun c => partTexts (candParts c))

/-- `... .join("\n") || "(inget svar)"` — the reply string the handler builds. -/
def replyText (resp : GenResponse) : String :=
  let t := String.intercalate "\n" (allTexts resp)
  if t = "" then "(inget svar)" else t

/-- A parsed tool call, `{ name, args }` with `args ?? {}` already applied. -/
structure ToolCall where
  name : String
  args : Json
deriving DecidableEq

/-- The handler's inline function-call extraction (lines 153-164): every part
of every candidate whose `functionCall.name` is truthy contributes one call. -/
def extractCalls (resp : GenResponse) : List ToolCall :=
  (resp.candidates.getD []).flatMap fun cand =>
    (candParts cand).filterMap fun p =>
      match p.functionCall with
      | some fc => if fc.name ≠ "" then some ⟨fc.name, fc.args.getD (Json.obj [])⟩ else none
      | none => none

/-- Conversation roles used by the handler when assembling `contents`. -/
inductive Role where
  | user : Role
  | model : Role
  | tool : Role
deriving DecidableEq

/-- One conversation turn `{ role, parts }` as sent in `contents`. -/
structure Turn where
  role : Role
  parts : List Part
deriving DecidableEq

/-- Outcome of one `model.generateContent` call: a response, or a thrown
error carrying its message string. -/
inductive GenResult where
  | ok : GenResponse → GenResult
  | err : String → GenResult
deriving DecidableEq

/-- Record of one underlying `generateContent` call: which model identifier
it targeted and the `contents` it was sent. -/
structure GenCall where
  model : String
  contents : List Turn
deriving DecidableEq

/-- Observable trace of a request: every underlying model call in order,
every backoff sleep, every MCP bridge invocation's arguments, and the
`contents` of each round-level (retry+fallback wrapped) invocation. -/
structure Trace where
  genCalls : List GenCall := []
  sleeps : List Nat := []
  mcpArgs : List Json := []
  roundContents : List (List Turn) := []
deriving DecidableEq

/-- Oracles for the external collaborators: `gen k` is the outcome of the
`k`-th underlying `generateContent` call of the request (counted across
models and rounds), `mcp k args` the outcome of the `k`-th MCP bridge call. -/
structure Env where
  gen : Nat → GenResult
  mcp : Nat → Json → Except String Json

/-- `process.env.GEMINI_MODEL ?? "gemini-1.5-flash"` (default). -/
def PRIMARY_MODEL : String := "gemini-1.5-flash"

/-- `process.env.GEMINI_FALLBACK ?? "gemini-1.5-flash-8b"` (default). -/
def FALLBACK_MODEL : String := "gemini-1.5-flash-8b"

/-- `const backoff = [500, 1000, 2000, 4000]` (ms) in `generateWithRetry`. -/
def backoff : List Nat := [500, 1000, 2000, 4000]

/-- The retriable-error test: `msg.includes("503") || msg.includes("429") ||
msg.includes("overloaded")`. -/
def retriable (msg : String) : Bool :=
  strContains msg "503" || strContains msg "429" || strContains msg "overloaded"

/-- The attempt loop of `generateWithRetry` (lines 52-71), with `delays` the
not-yet-slept tail of `backoff` (so `delays = []` exactly when
`attempt === backoff.length`). Each attempt is logged; a retriable failure
with delays left sleeps `delays.head` and retries; otherwise the error is
re-thrown. -/
def retryGo (env : Env) (model : String) (contents : List Turn) :
    List Nat → Trace → GenResult × Trace
  | delays, tr =>
    let tr' : Trace := { tr with genCalls := tr.genCalls ++ [⟨model, contents⟩] }
    match env.gen tr.genCalls.length with
    | .ok r => (.ok r, tr')
    | .err m =>
      if retriable m then
        match delays with
        | [] => (.err m, tr')
        | d :: rest =>
          retryGo env model contents rest { tr' with sleeps := tr'.sleeps ++ [d] }
      else (.err m, tr')

/-- `generateWithRetry(modelName, args)` (lines 45-74). -/
def generateWithRetry (env : Env) (model : String) (contents : List Turn)
    (tr : Trace) : GenResult × Trace :=
  retryGo env model contents backoff tr

/-- One round-level invocation: `generateWithRetry(PRIMARY_MODEL, ...)
.catch(() => generateWithRetry(FALLBACK_MODEL, ...))` with identical
`contents`, as written at lines 145-151 and 178-198. The round's `contents`
are logged once on entry. -/
def genWithFallback (env : Env) (contents : List Turn) (tr : Trace) :
    GenResult × Trace :=
  match generateWithRetry env PRIMARY_MODEL contents
      { tr with roundContents := tr.roundContents ++ [contents] } with
  | (.ok r, tr2) => (.ok r, tr2)
  | (.err _, tr2) => generateWithRetry env FALLBACK_MODEL contents tr2

/-- The tool-execution loop (lines 166-175): for each extracted call whose
name is `"get_el_price"`, invoke the MCP bridge with its args and append one
`functionResponse` part; other names are skipped. A bridge error propagates
(the `await` throws into the surrounding `try`). -/
def runTools (env : Env) :
    List ToolCall → Trace → List Part → Except String (List Part) × Trace
  | [], tr, acc => (.ok acc, tr)
  | c :: rest, tr, acc =>
    if c.name = "get_el_price" then
      let tr' : Trace := { tr with mcpArgs := tr.mcpArgs ++ [c.args] }
      match env.mcp tr.mcpArgs.length c.args with
      | .error m => (.error m, tr')
      | .ok payload =>
        runTools env rest tr'
          (acc ++ [{ functionResponse := some ⟨c.name, payload⟩ }])
    else runTools env rest tr acc

/-- `{ role: "user", parts: [{ text: userMessage }] }`. -/
def userTurn (msg : String) : Turn :=
  ⟨Role.user, [{ text := some msg }]⟩

/-- `first.response.candidates?.[0]?.content?.parts ?? []` — the re-sent
model turn's parts in round 2. -/
def firstCandParts (resp : GenResponse) : List Part :=
  match resp.candidates with
  | some (c :: _) => candParts c
  | _ => []

/-- The handler's HTTP-level outcome: `res.json({reply})` (status 200) or
`res.status(503).json({error})`. -/
structure HttpResponse where
  status : Nat
  reply : Option String := none
  error : Option String := none
deriving DecidableEq

/-- The empty trace at the start of a request. -/
def emptyTrace : Trace := {}

/-- `app.post("/chat", ...)` (lines 140-222): round 1 with fallback, inline
call extraction, tool execution, optional round 2 with fallback, and the
catch-all mapping any thrown error to `503 { error }`. -/
def handleTurn (env : Env) (userMessage : String) : HttpResponse × Trace :=
  match genWithFallback env [userTurn userMessage] emptyTrace with
  | (.err m, tr) => ({ status := 503, error := some m }, tr)
  | (.ok first, tr) =>
    let calls := extractCalls first
    if calls.length > 0 then
      match runTools env calls tr [] with
      | (.error m, tr2) => ({ status := 503, error := some m }, tr2)
      | (.ok toolParts, tr2) =>
        let contents2 : List Turn :=
          [userTurn userMessage,
           ⟨Role.model, firstCandParts first⟩,
           ⟨Role.tool, toolParts⟩]
        match genWithFallback env contents2 tr2 with
        | (.err m, tr3) => ({ status := 503, error := some m }, tr3)
        | (.ok second, tr3) =>
          ({ status := 200, reply := some (replyText second) }, tr3)
    else ({ status := 200, reply := some (replyText first) }, tr)

/-- An item of the MCP reply's `content` array; `text` may be absent. -/
structure McpContentItem where
  text : Option String := none
deriving DecidableEq

/-- The MCP `callTool` reply; `content := none` models a reply whose
`content` is not an array (`Array.isArray` fails). -/
structure ToolReply where
  content : Option (List McpContentItem)
deriving DecidableEq

/-- Oracles for one `callMcpGetPrices` run: the outcomes of
`client.connect`, `client.callTool`, and `JSON.parse`. -/
structure McpEnv where
  connect : Except String Unit
  callTool : Except String ToolReply
  parse : String → Except String Json

/-- `content[0]?.text` guarded by `Array.isArray`. -/
def mcpText (reply : ToolReply) : Option String :=
  match reply.content with
  | some (item :: _) => item.text
  | _ => none

/-- `callMcpGetPrices` (lines 15-39), paired with whether `client.close()`
was reached. The source has no `try`/`finally`: `close` runs only after a
successful `connect` and `callTool`; the missing-text check and
`JSON.parse` happen after `close`. -/
def callMcpGetPrices (env : McpEnv) : Except String Json × Bool :=
  match env.connect with
  | .error m => (.error m, false)
  | .ok _ =>
    match env.callTool with
    | .error m => (.error m, false)
    | .ok reply =>
      match mcpText reply with
      | none => (.error "Oväntat MCP-svar (saknar content[0].text)", true)
      | some t =>
        if t = "" then (.error "Oväntat MCP-svar (saknar content[0].text)", true)
        else
          match env.parse t with
          | .error m => (.error m, true)
          | .ok j => (.ok j, true)

instance {ε α : Type} [DecidableEq ε] [DecidableEq α] : DecidableEq (Except ε α) := fun a b =>
  match a, b with
  | .ok x, .ok y =>
    if h : x = y then isTrue (by rw [h]) else isFalse (by intro hc; injection hc; exact h ‹_›)
  | .error x, .error y =>
    if h : x = y then isTrue (by rw [h]) else isFalse (by intro hc; injection hc; exact h ‹_›)
  | .ok _, .error _ => isFalse (fun h => Except.noConfusion h)
  | .error _, .ok _ => isFalse (fun h => Except.noConfusion h)

/-- A part holding only text. -/
def textPart (s : String) : Part := { text := some s }

/-- A candidate with the given parts. -/
def candOf (ps : List Part) : Candidate := ⟨some ⟨some ps⟩⟩

/-- A response with the given candidates. -/
def respOf (cs : List Candidate) : GenResponse := ⟨some cs⟩

/-- A part holding only a function call with empty-object args. -/
def callPart (n : String) : Part := { functionCall := some ⟨n, some (Json.obj [])⟩ }

/-! ## Trace lemmas for the retry loop -/

/-- One pass of `retryGo` makes between 1 and `delays.length + 1` attempts,
each logged against the given model and contents, sleeps the corresponding
prefix of `delays`, and touches nothing else in the trace. -/
theorem retryGo_shape (env : Env) (model : String) (contents : List Turn) :
    ∀ (delays : List Nat) (tr : Trace), ∃ (n : Nat) (res : GenResult),
      1 ≤ n ∧ n ≤ delays.length + 1 ∧
      retryGo env model contents delays tr =
        (res, { tr with
                genCalls := tr.genCalls ++ List.replicate n ⟨model, contents⟩,
                sleeps := tr.sleeps ++ delays.take (n - 1) }) := by
  intro delays
  induction delays with
  | nil =>
    intro tr
    refine ⟨1, ?_⟩
    simp only [retryGo]
    cases h : env.gen tr.genCalls.length with
    | ok r => exact ⟨.ok r, le_refl 1, by simp, by simp⟩
    | err m =>
      refine ⟨.err m, le_refl 1, by simp, ?_⟩
      by_cases hr : retriable m = true <;> simp [hr]
  | cons d rest ih =>
    intro tr
    rw [retryGo]
    cases h : env.gen tr.genCalls.length with
    | ok r =>
      exact ⟨1, .ok r, le_refl 1, by simp, by simp⟩
    | err m =>
      by_cases hr : retriable m = true
      · obtain ⟨n', res, hn1, hn2, heq⟩ :=
          ih { tr with genCalls := tr.genCalls ++ [⟨model, contents⟩],
                       sleeps := tr.sleeps ++ [d] }
        obtain ⟨m', rfl⟩ : ∃ m', n' = m' + 1 :=
          ⟨n' - 1, (Nat.succ_pred_eq_of_pos hn1).symm⟩
        refine ⟨m' + 2, res, by omega, by simp; omega, ?_⟩
        simp only [hr, if_true]
        rw [heq]
        simp [List.replicate_succ, List.take_succ_cons]
      · refine ⟨1, .err m, le_refl 1, by simp, ?_⟩
        simp [hr]

/-- `retryGo` never touches the MCP log or the round log. -/
theorem retryGo_other_fields (env : Env) (model : String) (contents : List Turn)
    (delays : List Nat) (tr : Trace) :
    (retryGo env model contents delays tr).2.mcpArgs = tr.mcpArgs ∧
    (retryGo env model contents delays tr).2.roundContents = tr.roundContents := by
  obtain ⟨n, res, _, _, heq⟩ := retryGo_shape env model contents delays tr
  rw [heq]
  exact ⟨rfl, rfl⟩

/-- A round-level invocation logs its `contents` once, appends only gen
calls that target the primary or fallback model with exactly those
`contents`, appends some sleeps, and leaves the MCP log alone. -/
theorem genWithFallback_shape (env : Env) (contents : List Turn) (tr : Trace) :
    ∃ (res : GenResult) (added : List GenCall) (sl : List Nat),
      genWithFallback env contents tr =
        (res, { tr with
                genCalls := tr.genCalls ++ added,
                sleeps := tr.sleeps ++ sl,
                roundContents := tr.roundContents ++ [contents] }) ∧
      (∀ c ∈ added, (c.model = PRIMARY_MODEL ∨ c.model = FALLBACK_MODEL) ∧
        c.contents = contents) := by
  obtain ⟨n₁, res₁, hn₁, hn₁', heq₁⟩ :=
    retryGo_shape env PRIMARY_MODEL contents backoff
      { tr with roundContents := tr.roundContents ++ [contents] }
  cases res₁ with
  | ok r =>
    have hcomp : genWithFallback env contents tr =
        (.ok r, { tr with
          genCalls := tr.genCalls ++ List.replicate n₁ ⟨PRIMARY_MODEL, contents⟩,
          sleeps := tr.sleeps ++ backoff.take (n₁ - 1),
          roundContents := tr.roundContents ++ [contents] }) := by
      rw [genWithFallback, generateWithRetry, heq₁]
    refine ⟨.ok r, List.replicate n₁ ⟨PRIMARY_MODEL, contents⟩,
      backoff.take (n₁ - 1), hcomp, ?_⟩
    intro c hc
    rw [List.eq_of_mem_replicate hc]
    exact ⟨Or.inl rfl, rfl⟩
  | err m =>
    obtain ⟨n₂, res₂, hn₂, hn₂', heq₂⟩ :=
      retryGo_shape env FALLBACK_MODEL contents backoff
        { tr with
          genCalls := tr.genCalls ++ List.replicate n₁ ⟨PRIMARY_MODEL, contents⟩,
          sleeps := tr.sleeps ++ backoff.take (n₁ - 1),
          roundContents := tr.roundContents ++ [contents] }
    have hcomp : genWithFallback env contents tr =
        retryGo env FALLBACK_MODEL contents backoff
          { tr with
            genCalls := tr.genCalls ++ List.replicate n₁ ⟨PRIMARY_MODEL, contents⟩,
            sleeps := tr.sleeps ++ backoff.take (n₁ - 1),
            roundContents := tr.roundContents ++ [contents] } := by
      rw [genWithFallback, generateWithRetry, heq₁]
      rfl
    refine ⟨res₂,
      List.replicate n₁ ⟨PRIMARY_MODEL, contents⟩ ++
        List.replicate n₂ ⟨FALLBACK_MODEL, contents⟩,
      backoff.take (n₁ - 1) ++ backoff.take (n₂ - 1), ?_, ?_⟩
    · rw [hcomp, heq₂]
      simp
    · intro c hc
      rcases List.mem_append.mp hc with h | h
      · rw [List.eq_of_mem_replicate h]; exact ⟨Or.inl rfl, rfl⟩
      · rw [List.eq_of_mem_replicate h]; exact ⟨Or.inr rfl, rfl⟩

/-- Extracting trace facts from a round-level invocation equality: the
result trace extends the entry trace's round log by exactly this round's
`contents` and does not touch the MCP log. -/
theorem genWithFallback_fields (env : Env) (contents : List Turn) (tr tr' : Trace)
    (res : GenResult) (h : genWithFallback env contents tr = (res, tr')) :
    tr'.roundContents = tr.roundContents ++ [contents] ∧
    tr'.mcpArgs = tr.mcpArgs := by
  obtain ⟨res₀, added, sl, heq, -⟩ := genWithFallback_shape env contents tr
  rw [heq] at h
  injection h with h1 h2
  subst h2
  exact ⟨rfl, rfl⟩

/-- If every extracted call has an unrecognized name, the tool loop executes
nothing: no MCP call, no parts, no error. -/
theorem runTools_skip_all (env : Env) :
    ∀ (calls : List ToolCall) (tr : Trace) (acc : List Part),
      (∀ c ∈ calls, c.name ≠ "get_el_price") →
      runTools env calls tr acc = (.ok acc, tr) := by
  intro calls
  induction calls with
  | nil => intro tr acc _; rfl
  | cons c rest ih =>
    intro tr acc hall
    rw [runTools]
    rw [if_neg (by exact fun hc => hall c (List.mem_cons_self c rest) hc)]
    exact ih tr acc (fun c' hc' => hall c' (List.mem_cons_of_mem c hc'))

/-- When the tool loop succeeds it appends exactly one `functionResponse`
part per recognized call, logs exactly the recognized calls' arguments with
the MCP bridge, and touches nothing else in the trace. -/
theorem runTools_ok_spec (env : Env) :
    ∀ (calls : List ToolCall) (tr : Trace) (acc out : List Part) (tr' : Trace),
      runTools env calls tr acc = (.ok out, tr') →
      out.length = acc.length + (calls.filter (fun c => c.name = "get_el_price")).length ∧
      (∀ p ∈ out, p ∈ acc ∨
        (p.text = none ∧ p.functionCall = none ∧ p.functionResponse ≠ none)) ∧
      tr' = { tr with mcpArgs := tr.mcpArgs ++
        (calls.filter (fun c => c.name = "get_el_price")).map ToolCall.args } := by
  intro calls
  induction calls with
  | nil =>
    intro tr acc out tr' h
    rw [runTools] at h
    injection h with h1 h2
    injection h1 with h1
    subst h1
    subst h2
    refine ⟨by simp, fun p hp => Or.inl hp, by simp⟩
  | cons c rest ih =>
    intro tr acc out tr' h
    rw [runTools] at h
    by_cases hc : c.name = "get_el_price"
    · rw [if_pos hc] at h
      cases hm : env.mcp tr.mcpArgs.length c.args with
      | error m => rw [hm] at h; exact absurd (congrArg Prod.fst h) (by simp)
      | ok payload =>
        rw [hm] at h
        obtain ⟨hlen, hmem, htr⟩ := ih _ _ _ _ h
        refine ⟨by simp [hc] at hlen ⊢; omega, ?_, ?_⟩
        · intro p hp
          rcases hmem p hp with hp' | hp'
          · rcases List.mem_append.mp hp' with h'' | h''
            · exact Or.inl h''
            · right
              rw [List.mem_singleton.mp h'']
              exact ⟨rfl, rfl, by simp⟩
          · exact Or.inr hp'
        · rw [htr]
          simp [hc]
    · rw [if_neg hc] at h
      obtain ⟨hlen, hmem, htr⟩ := ih _ _ _ _ h
      exact ⟨by simpa [hc] using hlen, hmem, by rw [htr]; simp [hc]⟩

/-! ## Claim theorems: retry, backoff and fallback -/

/-- C3: if generation fails with a retriable error on the first `N` attempts
(`N` < policy length) and succeeds on attempt `N + 1`, `generateWithRetry`
returns the success result and sleeps exactly `N` times with the policy's
delays `500, 1000, 2000, 4000` ms taken in order; moreover the total number
of attempts never exceeds policy length + 1, and when every attempt fails
retriably the last attempt's error is re-raised. -/
theorem generateWithRetry_policy
    (env : Env) (model : String) (contents : List Turn)
    (N : Nat) (msgs : Nat → String) (r : GenResponse)
    (hN : N < backoff.length)
    (hfail : ∀ k, k < N → env.gen k = .err (msgs k) ∧ retriable (msgs k) = true)
    (hok : env.gen N = .ok r) :
    backoff = [500, 1000, 2000, 4000] ∧
    generateWithRetry env model contents emptyTrace =
      (.ok r, { genCalls := List.replicate (N + 1) ⟨model, contents⟩,
                sleeps := backoff.take N }) ∧
    (∀ (env' : Env) (tr : Trace),
      ((generateWithRetry env' model contents tr).2.genCalls).length ≤
        tr.genCalls.length + backoff.length + 1) ∧
    (∀ (env' : Env) (msgs' : Nat → String),
      (∀ k, k ≤ backoff.length →
        env'.gen k = .err (msgs' k) ∧ retriable (msgs' k) = true) →
      (generateWithRetry env' model contents emptyTrace).1 =
        .err (msgs' backoff.length)) := by
  refine ⟨rfl, ?_, ?_, ?_⟩
  · have hN4 : N < 4 := hN
    interval_cases N
    · simp [generateWithRetry, retryGo, emptyTrace, backoff, hok]
    · have h0 := hfail 0 (by omega)
      simp [generateWithRetry, retryGo, emptyTrace, backoff, h0.1, h0.2, hok,
        List.replicate]
    · have h0 := hfail 0 (by omega)
      have h1 := hfail 1 (by omega)
      simp [generateWithRetry, retryGo, emptyTrace, backoff, h0.1, h0.2,
        h1.1, h1.2, hok, List.replicate]
    · have h0 := hfail 0 (by omega)
      have h1 := hfail 1 (by omega)
      have h2 := hfail 2 (by omega)
      simp [generateWithRetry, retryGo, emptyTrace, backoff, h0.1, h0.2,
        h1.1, h1.2, h2.1, h2.2, hok, List.replicate]
  · intro env' tr
    obtain ⟨n, res, hn1, hn2, heq⟩ := retryGo_shape env' model contents backoff tr
    rw [generateWithRetry, heq]
    simp only [List.length_append, List.length_replicate]
    omega
  · intro env' msgs' hf
    have h0 := hf 0 (by decide)
    have h1 := hf 1 (by decide)
    have h2 := hf 2 (by decide)
    have h3 := hf 3 (by decide)
    have h4 := hf 4 (by decide)
    simp [generateWithRetry, retryGo, emptyTrace, backoff, h0.1, h0.2,
      h1.1, h1.2, h2.1, h2.2, h3.1, h3.2, h4.1, h4.2]

/-- A success response used by the concrete witnesses. -/
def respW : GenResponse := respOf [candOf [textPart "ok"]]

/-- Oracle failing retriably twice, then succeeding. -/
def envRetryW : Env :=
  { gen := fun k => if k < 2 then .err "503" else .ok respW,
    mcp := fun _ _ => .error "unused" }

theorem generateWithRetry_policy_witness :
    (2 < backoff.length ∧
      (∀ k, k < 2 → envRetryW.gen k = .err "503" ∧ retriable "503" = true) ∧
      envRetryW.gen 2 = .ok respW) ∧
    generateWithRetry envRetryW "m" [] emptyTrace =
      (.ok respW, { genCalls := List.replicate (2 + 1) ⟨"m", []⟩,
                    sleeps := backoff.take 2 }) :=
  ⟨⟨by decide, by decide, by decide⟩,
   (generateWithRetry_policy envRetryW "m" [] 2 (fun _ => "503") respW
     (by decide) (by decide) (by decide)).2.1⟩

/-- C4: when the full retry cycle against the primary model is exhausted,
the identical `contents` are retried in full against the fallback model;
a succeeding fallback makes its result the outcome after exactly one full
primary cycle (policy length + 1 attempts, all sleeps taken), and a failing
fallback is terminal for the round, re-raising its last error. -/
theorem genWithFallback_primary_exhaustion
    (env : Env) (contents : List Turn) (msgs : Nat → String) (r : GenResponse)
    (hfail : ∀ k, k < backoff.length + 1 →
      env.gen k = .err (msgs k) ∧ retriable (msgs k) = true)
    (hok : env.gen (backoff.length + 1) = .ok r) :
    genWithFallback env contents emptyTrace =
      (.ok r, { genCalls :=
                  List.replicate (backoff.length + 1) ⟨PRIMARY_MODEL, contents⟩ ++
                    [⟨FALLBACK_MODEL, contents⟩],
                sleeps := backoff,
                roundContents := [contents] }) ∧
    (∀ (env' : Env) (msgs' : Nat → String),
      (∀ k, k < 2 * (backoff.length + 1) →
        env'.gen k = .err (msgs' k) ∧ retriable (msgs' k) = true) →
      genWithFallback env' contents emptyTrace =
        (.err (msgs' (2 * (backoff.length + 1) - 1)),
         { genCalls :=
             List.replicate (backoff.length + 1) ⟨PRIMARY_MODEL, contents⟩ ++
               List.replicate (backoff.length + 1) ⟨FALLBACK_MODEL, contents⟩,
           sleeps := backoff ++ backoff,
           roundContents := [contents] })) := by
  constructor
  · have h0 := hfail 0 (by decide)
    have h1 := hfail 1 (by decide)
    have h2 := hfail 2 (by decide)
    have h3 := hfail 3 (by decide)
    have h4 := hfail 4 (by decide)
    have hok5 : env.gen 5 = .ok r := by simpa [backoff] using hok
    simp [genWithFallback, generateWithRetry, retryGo, emptyTrace, backoff,
      h0.1, h0.2, h1.1, h1.2, h2.1, h2.2, h3.1, h3.2, h4.1, h4.2, hok5,
      List.replicate]
  · intro env' msgs' hf
    have h0 := hf 0 (by decide)
    have h1 := hf 1 (by decide)
    have h2 := hf 2 (by decide)
    have h3 := hf 3 (by decide)
    have h4 := hf 4 (by decide)
    have h5 := hf 5 (by decide)
    have h6 := hf 6 (by decide)
    have h7 := hf 7 (by decide)
    have h8 := hf 8 (by decide)
    have h9 := hf 9 (by decide)
    simp [genWithFallback, generateWithRetry, retryGo, emptyTrace, backoff,
      h0.1, h0.2, h1.1, h1.2, h2.1, h2.2, h3.1, h3.2, h4.1, h4.2,
      h5.1, h5.2, h6.1, h6.2, h7.1, h7.2, h8.1, h8.2, h9.1, h9.2,
      List.replicate]

/-- Oracle exhausting the primary cycle (5 retriable failures), then
succeeding on the fallback's first attempt. -/
def envExhW : Env :=
  { gen := fun k => if k < 5 then .err "429" else .ok respW,
    mcp := fun _ _ => .error "unused" }

theorem genWithFallback_primary_exhaustion_witness :
    ((∀ k, k < backoff.length + 1 →
        envExhW.gen k = .err "429" ∧ retriable "429" = true) ∧
      envExhW.gen (backoff.length + 1) = .ok respW) ∧
    genWithFallback envExhW [userTurn "x"] emptyTrace =
      (.ok respW,
       { genCalls :=
           List.replicate (backoff.length + 1) ⟨PRIMARY_MODEL, [userTurn "x"]⟩ ++
             [⟨FALLBACK_MODEL, [userTurn "x"]⟩],
         sleeps := backoff,
         roundContents := [[userTurn "x"]] }) :=
  ⟨⟨by decide, by decide⟩,
   (genWithFallback_primary_exhaustion envExhW [userTurn "x"]
     (fun _ => "429") respW (by decide) (by decide)).1⟩

/-- C10: fallback substitution is triggered by any failure of the primary
invocation, including a non-retriable error thrown on the very first
attempt: the fallback's full retry cycle then runs, and if it succeeds
immediately the turn's outcome is its result after exactly one primary
attempt. -/
theorem genWithFallback_nonretriable_triggers_fallback
    (env : Env) (contents : List Turn) (m : String)
    (h0 : env.gen 0 = .err m) (hnr : retriable m = false) :
    genWithFallback env contents emptyTrace =
      generateWithRetry env FALLBACK_MODEL contents
        { genCalls := [⟨PRIMARY_MODEL, contents⟩], roundContents := [contents] } ∧
    (∀ r, env.gen 1 = .ok r →
      genWithFallback env contents emptyTrace =
        (.ok r, { genCalls := [⟨PRIMARY_MODEL, contents⟩, ⟨FALLBACK_MODEL, contents⟩],
                  roundContents := [contents] })) := by
  constructor
  · simp [genWithFallback, generateWithRetry, retryGo, emptyTrace, backoff, h0, hnr]
  · intro r hok1
    simp [genWithFallback, generateWithRetry, retryGo, emptyTrace, backoff,
      h0, hnr, hok1]

/-- Oracle failing non-retriably on the first call, then succeeding. -/
def envFatalW : Env :=
  { gen := fun k => if k = 0 then .err "fatal" else .ok respW,
    mcp := fun _ _ => .error "unused" }

theorem genWithFallback_nonretriable_witness :
    (envFatalW.gen 0 = .err "fatal" ∧ retriable "fatal" = false ∧
      envFatalW.gen 1 = .ok respW) ∧
    genWithFallback envFatalW [] emptyTrace =
      (.ok respW, { genCalls := [⟨PRIMARY_MODEL, []⟩, ⟨FALLBACK_MODEL, []⟩],
                    roundContents := [[]] }) :=
  ⟨⟨by decide, by decide, by decide⟩,
   (genWithFallback_nonretriable_triggers_fallback envFatalW [] "fatal"
     (by decide) (by decide)).2 respW (by decide)⟩

/-! ## Claim theorems: the two-round orchestrator -/

/-- The tool loop never touches the round log, whatever its outcome. -/
theorem runTools_roundContents (env : Env) :
    ∀ (calls : List ToolCall) (tr : Trace) (acc : List Part),
      (runTools env calls tr acc).2.roundContents = tr.roundContents := by
  intro calls
  induction calls with
  | nil => intro tr acc; rfl
  | cons c rest ih =>
    intro tr acc
    rw [runTools]
    by_cases hc : c.name = "get_el_price"
    · rw [if_pos hc]
      cases env.mcp tr.mcpArgs.length c.args with
      | error m => rfl
      | ok payload => exact ih _ _
    · rw [if_neg hc]
      exact ih tr acc

/-- C1: when round 1 succeeds and its response contains no tool calls, the
handler replies 200 with the concatenated text parts of the round-1
response, having performed exactly one round-level model invocation (round 2
never runs); when the primary model also succeeds on its first attempt,
exactly one underlying `generateContent` call was made in total. -/
theorem handleTurn_no_tool_calls
    (env : Env) (msg : String) (r : GenResponse) (tr : Trace)
    (h1 : genWithFallback env [userTurn msg] emptyTrace = (.ok r, tr))
    (hnc : extractCalls r = []) :
    handleTurn env msg = ({ status := 200, reply := some (replyText r) }, tr) ∧
    tr.roundContents = [[userTurn msg]] ∧
    (∀ (env' : Env) (r' : GenResponse),
      env'.gen 0 = .ok r' → extractCalls r' = [] →
      (handleTurn env' msg).2.genCalls = [⟨PRIMARY_MODEL, [userTurn msg]⟩]) := by
  refine ⟨?_, ?_, ?_⟩
  · rw [handleTurn, h1]
    simp [hnc]
  · have hf := genWithFallback_fields env [userTurn msg] emptyTrace tr _ h1
    simpa [emptyTrace] using hf.1
  · intro env' r' hg hnc'
    have hgw : genWithFallback env' [userTurn msg] emptyTrace =
        (.ok r', { genCalls := [⟨PRIMARY_MODEL, [userTurn msg]⟩],
                   roundContents := [[userTurn msg]] }) := by
      simp [genWithFallback, generateWithRetry, retryGo, emptyTrace, backoff, hg]
    rw [handleTurn, hgw]
    simp [hnc']

/-- Oracle answering every call with a plain text response. -/
def envTextW : Env :=
  { gen := fun _ => .ok respW, mcp := fun _ _ => .error "unused" }

/-- The round-1 trace of `envTextW`. -/
def trTextW : Trace :=
  { genCalls := [⟨PRIMARY_MODEL, [userTurn "hi"]⟩],
    roundContents := [[userTurn "hi"]] }

theorem handleTurn_no_tool_calls_witness :
    (genWithFallback envTextW [userTurn "hi"] emptyTrace = (.ok respW, trTextW) ∧
      extractCalls respW = []) ∧
    (handleTurn envTextW "hi" =
        ({ status := 200, reply := some (replyText respW) }, trTextW) ∧
      trTextW.roundContents = [[userTurn "hi"]] ∧
      (∀ (env' : Env) (r' : GenResponse),
        env'.gen 0 = .ok r' → extractCalls r' = [] →
        (handleTurn env' "hi").2.genCalls = [⟨PRIMARY_MODEL, [userTurn "hi"]⟩])) :=
  ⟨⟨by decide, by decide⟩,
   handleTurn_no_tool_calls envTextW "hi" respW trTextW (by decide) (by decide)⟩

/-- C2: when round 1 produced at least one extracted call and the tool loop
succeeded, the round-2 conversation sent to the model is, in order, the
original user turn, the verbatim first-candidate model turn of round 1, and
one tool turn whose parts are exactly the collected results: one
`functionResponse` part per recognized call, in order, with the bridge
invoked exactly on the recognized calls' parsed arguments. -/
theorem handleTurn_round2_conversation
    (env : Env) (msg : String) (r : GenResponse) (tr tr2 : Trace)
    (toolParts : List Part)
    (h1 : genWithFallback env [userTurn msg] emptyTrace = (.ok r, tr))
    (hc : extractCalls r ≠ [])
    (h2 : runTools env (extractCalls r) tr [] = (.ok toolParts, tr2)) :
    (handleTurn env msg).2.roundContents =
      [[userTurn msg],
       [userTurn msg, ⟨Role.model, firstCandParts r⟩, ⟨Role.tool, toolParts⟩]] ∧
    toolParts.length =
      ((extractCalls r).filter (fun c => c.name = "get_el_price")).length ∧
    (∀ p ∈ toolParts,
      p.text = none ∧ p.functionCall = none ∧ p.functionResponse ≠ none) ∧
    tr2.mcpArgs =
      ((extractCalls r).filter (fun c => c.name = "get_el_price")).map
        ToolCall.args := by
  have hfields := genWithFallback_fields env [userTurn msg] emptyTrace tr _ h1
  have hspec := runTools_ok_spec env (extractCalls r) tr [] toolParts tr2 h2
  have hmcp0 : tr.mcpArgs = [] := by simpa [emptyTrace] using hfields.2
  refine ⟨?_, by simpa using hspec.1, ?_, ?_⟩
  · have hpos : 0 < (extractCalls r).length := List.length_pos.mpr hc
    rcases h3 : genWithFallback env
        [userTurn msg, ⟨Role.model, firstCandParts r⟩, ⟨Role.tool, toolParts⟩] tr2
      with ⟨res3, tr3⟩
    have h3f := genWithFallback_fields env _ tr2 tr3 _ h3
    have h2rc : tr2.roundContents = tr.roundContents := by
      rw [hspec.2.2]
    have h1rc : tr.roundContents = [[userTurn msg]] := by
      simpa [emptyTrace] using hfields.1
    cases res3 <;> simp [handleTurn, h1, h2, h3, hpos, h3f.1, h2rc, h1rc]
  · intro p hp
    rcases hspec.2.1 p hp with h | h
    · exact absurd h (List.not_mem_nil p)
    · exact h
  · rw [hspec.2.2]
    simp [hmcp0]

/-- A round-1 response requesting the recognized tool once. -/
def respCallW : GenResponse := respOf [candOf [callPart "get_el_price"]]

/-- Oracle: round 1 requests the tool, the bridge returns a payload, round 2
answers with text. -/
def envToolW : Env :=
  { gen := fun k => if k = 0 then .ok respCallW else .ok respW,
    mcp := fun _ _ => .ok (Json.str "payload") }

/-- The round-1 trace of `envToolW`. -/
def trTool1W : Trace :=
  { genCalls := [⟨PRIMARY_MODEL, [userTurn "q"]⟩],
    roundContents := [[userTurn "q"]] }

/-- The trace after `envToolW`'s tool loop. -/
def trTool2W : Trace :=
  { genCalls := [⟨PRIMARY_MODEL, [userTurn "q"]⟩],
    mcpArgs := [Json.obj []],
    roundContents := [[userTurn "q"]] }

/-- The parts collected by `envToolW`'s tool loop. -/
def toolPartsW : List Part :=
  [{ functionResponse := some ⟨"get_el_price", Json.str "payload"⟩ }]

theorem handleTurn_round2_conversation_witness :
    (genWithFallback envToolW [userTurn "q"] emptyTrace = (.ok respCallW, trTool1W) ∧
      extractCalls respCallW ≠ [] ∧
      runTools envToolW (extractCalls respCallW) trTool1W [] =
        (.ok toolPartsW, trTool2W)) ∧
    ((handleTurn envToolW "q").2.roundContents =
      [[userTurn "q"],
       [userTurn "q", ⟨Role.model, firstCandParts respCallW⟩,
        ⟨Role.tool, toolPartsW⟩]] ∧
    toolPartsW.length =
      ((extractCalls respCallW).filter (fun c => c.name = "get_el_price")).length ∧
    (∀ p ∈ toolPartsW,
      p.text = none ∧ p.functionCall = none ∧ p.functionResponse ≠ none) ∧
    trTool2W.mcpArgs =
      ((extractCalls respCallW).filter (fun c => c.name = "get_el_price")).map
        ToolCall.args) :=
  ⟨⟨by decide, by decide, by decide⟩,
   handleTurn_round2_conversation envToolW "q" respCallW trTool1W trTool2W
     toolPartsW (by decide) (by decide) (by decide)⟩

/-- C5: calls whose name is not `get_el_price` are never passed to the MCP
bridge and produce no error; round 2 still proceeds, and when every call was
unrecognized its tool turn carries zero `functionResponse` parts — the
handler's outcome is exactly round 2's outcome. -/
theorem handleTurn_unrecognized_skipped
    (env : Env) (msg : String) (r : GenResponse) (tr : Trace)
    (h1 : genWithFallback env [userTurn msg] emptyTrace = (.ok r, tr))
    (hne : extractCalls r ≠ [])
    (hall : ∀ c ∈ extractCalls r, c.name ≠ "get_el_price") :
    (handleTurn env msg).2.mcpArgs = [] ∧
    (handleTurn env msg).2.roundContents =
      [[userTurn msg],
       [userTurn msg, ⟨Role.model, firstCandParts r⟩, ⟨Role.tool, []⟩]] ∧
    handleTurn env msg =
      (match (genWithFallback env
          [userTurn msg, ⟨Role.model, firstCandParts r⟩, ⟨Role.tool, []⟩] tr).1 with
       | .ok second => { status := 200, reply := some (replyText second) }
       | .err m => { status := 503, error := some m },
       (genWithFallback env
          [userTurn msg, ⟨Role.model, firstCandParts r⟩, ⟨Role.tool, []⟩] tr).2) := by
  have hpos : 0 < (extractCalls r).length := List.length_pos.mpr hne
  have hskip := runTools_skip_all env (extractCalls r) tr [] hall
  have hfields := genWithFallback_fields env [userTurn msg] emptyTrace tr _ h1
  have h1rc : tr.roundContents = [[userTurn msg]] := by
    simpa [emptyTrace] using hfields.1
  have h1mc : tr.mcpArgs = [] := by simpa [emptyTrace] using hfields.2
  rcases h3 : genWithFallback env
      [userTurn msg, ⟨Role.model, firstCandParts r⟩, ⟨Role.tool, []⟩] tr
    with ⟨res3, tr3⟩
  have h3f := genWithFallback_fields env _ tr tr3 _ h3
  cases res3 <;>
    exact ⟨by simp [handleTurn, h1, hskip, h3, hpos, h3f.2, h1mc],
           by simp [handleTurn, h1, hskip, h3, hpos, h3f.1, h1rc],
           by simp [handleTurn, h1, hskip, h3, hpos]⟩

/-- A round-1 response whose only call names an unrecognized tool. -/
def respOtherW : GenResponse := respOf [candOf [callPart "other_tool"]]

/-- Oracle: round 1 requests an unrecognized tool, round 2 answers text;
the bridge oracle would fail if it were ever consulted. -/
def envSkipW : Env :=
  { gen := fun k => if k = 0 then .ok respOtherW else .ok respW,
    mcp := fun _ _ => .error "bridge must not be called" }

/-- The round-1 trace of `envSkipW`. -/
def trSkipW : Trace :=
  { genCalls := [⟨PRIMARY_MODEL, [userTurn "s"]⟩],
    roundContents := [[userTurn "s"]] }

theorem handleTurn_unrecognized_skipped_witness :
    (genWithFallback envSkipW [userTurn "s"] emptyTrace = (.ok respOtherW, trSkipW) ∧
      extractCalls respOtherW ≠ [] ∧
      (∀ c ∈ extractCalls respOtherW, c.name ≠ "get_el_price")) ∧
    ((handleTurn envSkipW "s").2.mcpArgs = [] ∧
      (handleTurn envSkipW "s").2.roundContents =
        [[userTurn "s"],
         [userTurn "s", ⟨Role.model, firstCandParts respOtherW⟩, ⟨Role.tool, []⟩]] ∧
      handleTurn envSkipW "s" =
        (match (genWithFallback envSkipW
            [userTurn "s", ⟨Role.model, firstCandParts respOtherW⟩,
             ⟨Role.tool, []⟩] trSkipW).1 with
         | .ok second => { status := 200, reply := some (replyText second) }
         | .err m => { status := 503, error := some m },
         (genWithFallback envSkipW
            [userTurn "s", ⟨Role.model, firstCandParts respOtherW⟩,
             ⟨Role.tool, []⟩] trSkipW).2)) :=
  ⟨⟨by decide, by decide, by decide⟩,
   handleTurn_unrecognized_skipped envSkipW "s" respOtherW trSkipW
     (by decide) (by decide) (by decide)⟩

/-- C9: the HTTP boundary always answers either 200 with a reply and no
error field, or 503 (non-2xx) with an error message and no reply field —
never both, never neither; any unrecovered model or tool error during
either round yields the 503 shape. -/
theorem handleTurn_http_contract (env : Env) (msg : String) :
    ((handleTurn env msg).1.status = 200 ∧ (handleTurn env msg).1.error = none ∧
      ∃ s, (handleTurn env msg).1.reply = some s) ∨
    ((handleTurn env msg).1.status = 503 ∧ (handleTurn env msg).1.reply = none ∧
      ∃ e, (handleTurn env msg).1.error = some e) := by
  rcases h1 : genWithFallback env [userTurn msg] emptyTrace with ⟨res1, tr1⟩
  cases res1 with
  | err m => right; simp [handleTurn, h1]
  | ok r =>
    by_cases hcall : 0 < (extractCalls r).length
    · rcases h2 : runTools env (extractCalls r) tr1 [] with ⟨res2, tr2⟩
      cases res2 with
      | error m2 => right; simp [handleTurn, h1, h2, hcall]
      | ok toolParts =>
        rcases h3 : genWithFallback env
            [userTurn msg, ⟨Role.model, firstCandParts r⟩, ⟨Role.tool, toolParts⟩] tr2
          with ⟨res3, tr3⟩
        cases res3 with
        | err m3 => right; simp [handleTurn, h1, h2, h3, hcall]
        | ok second => left; simp [handleTurn, h1, h2, h3, hcall]
    · left; simp [handleTurn, h1, hcall]

/-- A round-1 response whose first candidate has no content while a later
candidate requests an unrecognized tool. -/
def respC8W : GenResponse := ⟨some [⟨none⟩, candOf [callPart "other_tool"]]⟩

/-- Oracle driving the handler into a round 2 whose model turn and tool
turn both have empty `parts`. -/
def envC8W : Env :=
  { gen := fun k => if k = 0 then .ok respC8W else .ok respW,
    mcp := fun _ _ => .error "unused" }

/-- C8 counterexample: the handler does send conversation turns with empty
`parts` — here round 2's model turn and tool turn are both empty, so the
claim that every sent turn has a non-empty parts sequence is false. -/
theorem handleTurn_sends_empty_turn_cx :
    (handleTurn envC8W "x").2.roundContents =
      [[userTurn "x"], [userTurn "x", ⟨Role.model, []⟩, ⟨Role.tool, []⟩]] ∧
    (Turn.mk Role.model []).parts = [] ∧
    (Turn.mk Role.tool []).parts = [] := by decide

/-- C8 amended: every round's conversation starts with the user turn, and
every turn with the user role that is ever sent has non-empty parts; model
and tool turns may be empty (see the counterexample). -/
theorem handleTurn_user_turn_nonempty (env : Env) (msg : String) :
    ∀ contents ∈ (handleTurn env msg).2.roundContents,
      contents.head? = some (userTurn msg) ∧
      ∀ t ∈ contents, t.role = Role.user → t.parts ≠ [] := by
  have huser : ∀ (rest : List Turn), (∀ t ∈ rest, t.role ≠ Role.user) →
      (userTurn msg :: rest).head? = some (userTurn msg) ∧
      ∀ t ∈ userTurn msg :: rest, t.role = Role.user → t.parts ≠ [] := by
    intro rest hrest
    refine ⟨rfl, ?_⟩
    intro t ht hrole
    rcases List.mem_cons.mp ht with rfl | hmem
    · simp [userTurn]
    · exact absurd hrole (hrest t hmem)
  have huser1 : ([userTurn msg] : List Turn).head? = some (userTurn msg) ∧
      ∀ t ∈ ([userTurn msg] : List Turn), t.role = Role.user → t.parts ≠ [] :=
    huser [] (by intro t ht; exact absurd ht (List.not_mem_nil t))
  rcases h1 : genWithFallback env [userTurn msg] emptyTrace with ⟨res1, tr1⟩
  have h1f := genWithFallback_fields env [userTurn msg] emptyTrace tr1 _ h1
  have h1rc : tr1.roundContents = [[userTurn msg]] := by
    simpa [emptyTrace] using h1f.1
  cases res1 with
  | err m =>
    intro c hc
    rw [show (handleTurn env msg).2 = tr1 by simp [handleTurn, h1], h1rc] at hc
    rw [List.mem_singleton.mp hc]
    exact huser1
  | ok r =>
    by_cases hcall : 0 < (extractCalls r).length
    · rcases h2 : runTools env (extractCalls r) tr1 [] with ⟨res2, tr2⟩
      have h2rc : tr2.roundContents = tr1.roundContents := by
        have hpr := runTools_roundContents env (extractCalls r) tr1 []
        rw [h2] at hpr
        exact hpr
      cases res2 with
      | error m2 =>
        intro c hc
        rw [show (handleTurn env msg).2 = tr2 by simp [handleTurn, h1, h2, hcall],
          h2rc, h1rc] at hc
        rw [List.mem_singleton.mp hc]
        exact huser1
      | ok toolParts =>
        rcases h3 : genWithFallback env
            [userTurn msg, ⟨Role.model, firstCandParts r⟩, ⟨Role.tool, toolParts⟩] tr2
          with ⟨res3, tr3⟩
        have h3f := genWithFallback_fields env _ tr2 tr3 _ h3
        intro c hc
        have h23 : (handleTurn env msg).2 = tr3 := by
          cases res3 <;> simp [handleTurn, h1, h2, h3, hcall]
        rw [h23, h3f.1, h2rc, h1rc] at hc
        simp only [List.cons_append, List.nil_append, List.mem_cons,
          List.mem_singleton, List.not_mem_nil, or_false] at hc
        rcases hc with rfl | rfl
        · exact huser1
        · refine huser [⟨Role.model, firstCandParts r⟩, ⟨Role.tool, toolParts⟩] ?_
          intro t ht
          rcases List.mem_cons.mp ht with rfl | ht'
          · simp
          · rw [List.mem_singleton.mp ht']
            simp
    · intro c hc
      rw [show (handleTurn env msg).2 = tr1 by simp [handleTurn, h1, hcall],
        h1rc] at hc
      rw [List.mem_singleton.mp hc]
      exact huser1

theorem handleTurn_user_turn_nonempty_witness :
    ([userTurn "x"] ∈ (handleTurn envC8W "x").2.roundContents) ∧
    (([userTurn "x"] : List Turn).head? = some (userTurn "x") ∧
      ∀ t ∈ ([userTurn "x"] : List Turn), t.role = Role.user → t.parts ≠ []) :=
  ⟨by decide, handleTurn_user_turn_nonempty envC8W "x" [userTurn "x"] (by decide)⟩

/-! ## Claim theorems: text extraction -/

theorem intercalate_go_ne (sep : String) :
    ∀ (as : List String) (acc : String), acc ≠ "" →
      String.intercalate.go acc sep as ≠ "" := by
  intro as
  induction as with
  | nil =>
    intro acc hacc
    rw [String.intercalate.go]
    exact hacc
  | cons a as ih =>
    intro acc hacc
    rw [String.intercalate.go]
    apply ih
    intro hc
    apply hacc
    apply String.ext
    have hdata : acc.data ++ sep.data ++ a.data = [] := by
      have := congrArg String.data hc
      simpa using this
    have hnil : acc.data = [] :=
      (List.append_eq_nil.mp (List.append_eq_nil.mp hdata).1).1
    simp [hnil]

theorem intercalate_ne_of_head_ne (sep a : String) (as : List String)
    (ha : a ≠ "") : String.intercalate sep (a :: as) ≠ "" := by
  rw [String.intercalate]
  exact intercalate_go_ne sep as a ha

theorem extractTextGo_all_empty :
    ∀ cs : List Candidate, (∀ c ∈ cs, partTexts (candParts c) = []) →
      extractTextGo cs = "(inget svar)" := by
  intro cs
  induction cs with
  | nil => intro _; rfl
  | cons c cs ih =>
    intro h
    rw [extractTextGo]
    have hje : joinedText c = "" := by
      rw [joinedText, h c (List.mem_cons_self c cs)]
      rfl
    rw [if_neg (by simp [hje])]
    exact ih (fun c' hc' => h c' (List.mem_cons_of_mem c hc'))

theorem extractTextGo_ne : ∀ cs : List Candidate, extractTextGo cs ≠ "" := by
  intro cs
  induction cs with
  | nil => decide
  | cons c cs ih =>
    rw [extractTextGo]
    by_cases h : joinedText c ≠ ""
    · rw [if_pos h]; exact h
    · rw [if_neg h]; exact ih

theorem allTexts_mem_ne (resp : GenResponse) (s : String)
    (hs : s ∈ allTexts resp) : s ≠ "" := by
  rw [allTexts] at hs
  obtain ⟨c, _, hsp⟩ := List.mem_flatMap.mp hs
  rw [partTexts] at hsp
  simpa using (List.mem_filter.mp hsp).2

theorem allTexts_all_empty (resp : GenResponse)
    (h : ∀ c ∈ resp.candidates.getD [], partTexts (candParts c) = []) :
    allTexts resp = [] := by
  rw [allTexts]
  rcases hl : allTexts resp with - | ⟨a, as⟩
  · rw [allTexts] at hl
    exact hl
  · exfalso
    have ha : a ∈ allTexts resp := by rw [hl]; exact List.mem_cons_self a as
    rw [allTexts] at ha
    obtain ⟨c, hc, hsp⟩ := List.mem_flatMap.mp ha
    rw [h c hc] at hsp
    exact absurd hsp (List.not_mem_nil a)

/-- C6 amended: the standalone `extractText` helper joins a candidate's
populated text parts with newline and the first candidate yielding
non-empty text wins; the handler's reply, however, concatenates the
populated text parts of ALL candidates joined by newline. In both, when no
candidate yields text the placeholder `"(inget svar)"` is returned, and
neither ever returns the empty string; every string contributing to the
reply comes from a populated, non-empty text part. -/
theorem text_extraction_amended :
    (∀ (resp : GenResponse) (c : Candidate) (cs : List Candidate),
      resp.candidates = some (c :: cs) → joinedText c ≠ "" →
      extractText resp = joinedText c) ∧
    (∀ resp : GenResponse,
      (∀ c ∈ resp.candidates.getD [], partTexts (candParts c) = []) →
      extractText resp = "(inget svar)" ∧ replyText resp = "(inget svar)") ∧
    (∀ resp : GenResponse, extractText resp ≠ "" ∧ replyText resp ≠ "") ∧
    (∀ (resp : GenResponse) (s : String), s ∈ allTexts resp → s ≠ "") ∧
    (∀ resp : GenResponse, allTexts resp ≠ [] →
      replyText resp = String.intercalate "\n" (allTexts resp)) := by
  refine ⟨?_, ?_, ?_, allTexts_mem_ne, ?_⟩
  · intro resp c cs hc ht
    rw [extractText, hc, Option.getD_some, extractTextGo, if_pos ht]
  · intro resp h
    refine ⟨extractTextGo_all_empty _ h, ?_⟩
    simp [replyText, allTexts_all_empty resp h,
      show String.intercalate "\n" ([] : List String) = "" from rfl]
  · intro resp
    refine ⟨extractTextGo_ne _, ?_⟩
    rw [replyText]
    by_cases ht : String.intercalate "\n" (allTexts resp) = ""
    · simp only [ht, if_pos rfl]
      decide
    · simp only [if_neg ht]
      exact ht
  · intro resp hne
    rcases hl : allTexts resp with - | ⟨a, as⟩
    · exact absurd hl hne
    · have ha : a ≠ "" :=
        allTexts_mem_ne resp a (by rw [hl]; exact List.mem_cons_self a as)
      have hni := intercalate_ne_of_head_ne "\n" a as ha
      rw [replyText, hl]
      simp only [if_neg hni]

/-- A response with two text-bearing candidates. -/
def respABW : GenResponse := respOf [candOf [textPart "A"], candOf [textPart "B"]]

/-- Oracle returning the two-candidate response. -/
def envABW : Env :=
  { gen := fun _ => .ok respABW, mcp := fun _ _ => .error "unused" }

/-- C6 counterexample: on a response whose first candidate yields `"A"` and
whose second yields `"B"`, `extractText` returns `"A"` (first candidate
wins), but the reply the handler actually returns is `"A\n B"` without the
blank — the later candidate's text is not ignored, so the claim is false of
the text extraction that produces the reply. -/
theorem reply_joins_all_candidates_cx :
    extractText respABW = "A" ∧
    (handleTurn envABW "q").1.reply = some "A\nB" ∧
    ("A\nB" : String) ≠ "A" := by decide

theorem text_extraction_amended_witness :
    (respABW.candidates = some (candOf [textPart "A"] :: [candOf [textPart "B"]]) ∧
      joinedText (candOf [textPart "A"]) ≠ "") ∧
    extractText respABW = joinedText (candOf [textPart "A"]) :=
  ⟨⟨by decide, by decide⟩,
   text_extraction_amended.1 respABW (candOf [textPart "A"])
     [candOf [textPart "B"]] (by decide) (by decide)⟩

/-! ## Claim theorems: MCP bridge connection lifecycle -/

/-- Bridge oracle whose tool call itself fails. -/
def mcpFailW : McpEnv :=
  { connect := .ok (), callTool := .error "boom", parse := fun _ => .error "unused" }

/-- C7 counterexample: when `client.callTool` throws, `client.close()` is
never reached (the source has no `try`/`finally`), so the connection is not
closed on every outcome. -/
theorem mcp_close_skipped_cx :
    callMcpGetPrices mcpFailW = (.error "boom", false) := by decide

/-- C7 amended: the connection is closed exactly when `connect` and
`callTool` both succeed — in particular it is still closed when the reply
lacks `content[0].text` or payload decoding fails, because those checks run
after `close` — but when the tool call itself fails the connection is never
closed and that error propagates. -/
theorem callMcp_close_behavior :
    (∀ env : McpEnv, (callMcpGetPrices env).2 = true ↔
      (env.connect = .ok () ∧ ∃ reply, env.callTool = .ok reply)) ∧
    (∀ (env : McpEnv) (reply : ToolReply),
      env.connect = .ok () → env.callTool = .ok reply → mcpText reply = none →
      callMcpGetPrices env =
        (.error "Oväntat MCP-svar (saknar content[0].text)", true)) ∧
    (∀ (env : McpEnv) (m : String),
      env.callTool = .error m → env.connect = .ok () →
      callMcpGetPrices env = (.error m, false)) := by
  have hval : ∀ (env : McpEnv) (reply : ToolReply),
      env.connect = .ok () → env.callTool = .ok reply →
      (callMcpGetPrices env).2 = true := by
    intro env reply hc ht
    cases hmt : mcpText reply with
    | none => simp [callMcpGetPrices, hc, ht, hmt]
    | some t =>
      by_cases h0 : t = ""
      · simp [callMcpGetPrices, hc, ht, hmt, h0]
      · cases hp : env.parse t with
        | error m => simp [callMcpGetPrices, hc, ht, hmt, h0, hp]
        | ok j => simp [callMcpGetPrices, hc, ht, hmt, h0, hp]
  refine ⟨?_, ?_, ?_⟩
  · intro env
    constructor
    · intro h
      cases hconn : env.connect with
      | error m =>
        simp [callMcpGetPrices, hconn] at h
      | ok u =>
        cases u
        cases hct : env.callTool with
        | error m =>
          simp [callMcpGetPrices, hconn, hct] at h
        | ok reply => exact ⟨rfl, reply, rfl⟩
    · rintro ⟨hconn, reply, hct⟩
      exact hval env reply hconn hct
  · intro env reply hc ht hmt
    simp [callMcpGetPrices, hc, ht, hmt]
  · intro env m hct hconn
    simp [callMcpGetPrices, hconn, hct]

/-- Bridge oracle whose reply decodes to nothing (`content` is `[]`). -/
def mcpNoTextW : McpEnv :=
  { connect := .ok (), callTool := .ok ⟨some []⟩, parse := fun _ => .error "unused" }

theorem callMcp_close_behavior_witness :
    (mcpNoTextW.connect = .ok () ∧ mcpNoTextW.callTool = .ok (⟨some []⟩ : ToolReply) ∧
      mcpText ⟨some []⟩ = none) ∧
    callMcpGetPrices mcpNoTextW =
      (.error "Oväntat MCP-svar (saknar content[0].text)", true) :=
  ⟨⟨by decide, by decide, by decide⟩,
   callMcp_close_behavior.2.1 mcpNoTextW ⟨some []⟩ (by decide) (by decide) (by decide)⟩

end Elpris
